import Mathlib

/-!
Verification development for the celestia-vestings repository.

The repository has two pipelines:

* `src/vested_addresses.py` (Discovery): pages through all addresses of the
  upstream API, looks up vesting records per address, appends matches to a
  CSV sink and advances an offset checkpoint.
* `src/process_withdrawals.py` (History): for each input-CSV row (an address),
  pages through withdrawal transactions, fetches per-transaction events,
  derives withdrawal amounts, appends transaction rows and a summary row to
  CSV sinks and advances a row-index checkpoint.

The embedding below translates the relevant Python functions into Lean.
Machine-independent conventions:

* Python integers are `Nat`/`Int` (Python ints are unbounded, so no modulus).
* Python strings are `String`, manipulated through their character lists;
  the string builtins used by the source (`str.upper`, `str.endswith`,
  `str.rstrip`, `int(...)`) are modelled explicitly below because the code
  relies on their exact semantics (e.g. `rstrip` strips a character SET).
* HTTP calls are modelled by explicit outcome values (`FetchResult`):
  a "world" records, per request, the outcome(s) the network would produce.
* `while True:` loops take a fuel parameter; `none` means the loop was still
  running (or an uncaught exception was raised) instead of returning.
* File sinks are modelled as `Option (List (CsvLine ρ))`: `none` means the
  file does not exist; a line is either the CSV header or a data row.
-/

namespace CelestiaVestings

/-- Python `str.upper` on one ASCII character (the source only upcases
hexadecimal-ish hash strings, so the ASCII case is the relevant one). -/
def pyUpperChar (c : Char) : Char :=
  if c.isLower then Char.ofNat (c.toNat - 32) else c

/-- Python `str.upper`, modelled characterwise. -/
def pyUpper (s : String) : String := ⟨s.data.map pyUpperChar⟩

/-- Python `s.endswith(suffix)`. -/
def pyEndswith (s suffix : String) : Bool :=
  List.take suffix.data.length s.data.reverse == suffix.data.reverse

/-- Python `s.rstrip(chars)`: removes trailing characters that belong to the
character set `p` (NOT the literal suffix). -/
def rstripChars (p : Char → Bool) (s : String) : String :=
  ⟨(s.data.reverse.dropWhile p).reverse⟩

/-- The character set of the Python literal `'utia'`, as used by
`.rstrip('utia')` in `process_withdrawals.py` line 88. -/
def isUtiaChar (c : Char) : Bool := c == 'u' || c == 't' || c == 'i' || c == 'a'

/-- Value of a digit string, most significant digit first. -/
def digitsVal (l : List Char) : Nat := l.foldl (fun a c => 10 * a + (c.toNat - 48)) 0

/-- Python `int(s)` restricted to the shapes that occur here: an optional
minus sign followed by decimal digits parses; everything else raises
`ValueError`, which we model as `none`. -/
def pyInt (s : String) : Option Int :=
  match s.data with
  | [] => none
  | c :: rest =>
    if c = '-' then
      if !rest.isEmpty && rest.all Char.isDigit then some (-(digitsVal rest : Int)) else none
    else if (c :: rest).all Char.isDigit then some ((digitsVal (c :: rest) : Int)) else none

/-- Outcome of one HTTP attempt: a decoded JSON body, or a transport-level
failure (timeout, connection failure, non-2xx status — i.e. a
`requests.RequestException`). -/
inductive FetchResult (α : Type) where
  | ok (v : α)
  | transportError
deriving DecidableEq

/-- The `while True: try: ... return ... except RequestException: sleep(5)`
skeleton of `get_transactions` and `get_transaction_events`
(`process_withdrawals.py` lines 36-54 and 57-70).  Input: the outcomes of the
successive attempts.  Output: `some (body, n)` when the `(n+1)`-st attempt is
the first success (the loop slept the fixed 5-second backoff `n` times before
returning), `none` when every listed attempt fails (the loop is still
retrying — it never returns an error to its caller). -/
def retryForever {α : Type} : List (FetchResult α) → Option (α × Nat)
  | [] => none
  | .ok v :: _ => some (v, 0)
  | .transportError :: rest => (retryForever rest).map (fun p => (p.1, p.2 + 1))

/-- One event of a transaction, as consumed by `process_address`:
`event['type']` and `event['data'].get('amount')` (the only parts of the
payload the code reads). `none` models a `data` dict without an `amount` key. -/
structure Event where
  type : String
  amount : Option String
deriving DecidableEq

/-- A transaction as fetched from `/address/{hash}/txs`: its `hash` plus the
remaining raw metadata fields, kept as an association list of field name to
rendered value. -/
structure RawTx where
  hash : String
  fields : List (String × String)
deriving DecidableEq

/-- A transaction after `process_address` annotated it:
`tx['withdraw_amount'] = ...` and `tx['address'] = address`
(`process_withdrawals.py` lines 92-93). -/
structure ProcessedTx where
  tx : RawTx
  withdraw_amount : Int
  address : String
deriving DecidableEq

/-- Summary dict written by `write_summary_to_csv`
(`process_withdrawals.py` lines 156-160). -/
structure SummaryRow where
  address : String
  withdraw_count : Nat
  sum_withdrawn_amount : Int
deriving DecidableEq

/-- An address record from `/address` — the code only reads `address['hash']`. -/
structure AddrRec where
  hash : String
deriving DecidableEq

/-- A vesting record from `/address/{hash}/vestings`; the code reads the
eight fields below with `.get`, so each is optional. -/
structure VestingRec where
  amount : Option String
  end_time : Option String
  hash : Option String
  height : Option String
  id : Option String
  start_time : Option String
  time : Option String
  type : Option String
deriving DecidableEq

/-- A row appended to the vested-addresses sink: the owning address plus the
vesting record fields (`vested_addresses.py` lines 75-85). -/
structure VestingRow where
  address : String
  amount : Option String
  end_time : Option String
  hash : Option String
  height : Option String
  id : Option String
  start_time : Option String
  time : Option String
  type : Option String
deriving DecidableEq

/-- Observable side effects of the drivers, in program order: the three CSV
sink writes and the checkpoint save. -/
inductive Action where
  | writeTx (txs : List ProcessedTx)
  | writeSummary (address : String) (withdraw_count : Nat) (sum_withdrawn_amount : Int)
  | writeVesting (rows : List VestingRow)
  | saveCheckpoint (value : Int)
deriving DecidableEq

/-- Sink writes are every action except a checkpoint save. -/
def isSinkWrite : Action → Bool
  | .saveCheckpoint _ => false
  | _ => true

/-- Recognizer for a transactions-sink write. -/
def isWriteTx : Action → Bool
  | .writeTx _ => true
  | _ => false

/-- One line of a CSV file: the header or a data row of type `ρ`. -/
inductive CsvLine (ρ : Type) where
  | header
  | row (r : ρ)
deriving DecidableEq

/-- Recognizer for the header line. -/
def isHeader {ρ : Type} : CsvLine ρ → Bool
  | .header => true
  | _ => false

/-- Number of header lines in a file. -/
def headerCount {ρ : Type} (l : List (CsvLine ρ)) : Nat := (l.filter isHeader).length

/-- `BATCH_SIZE = 100` — both source files set the same value
(`vested_addresses.py` line 14, `process_withdrawals.py` line 16). -/
def BATCH_SIZE : Nat := 100

/-- One recorded iteration of the History per-address paging loop: the offset
requested and the batch the (eventually successful) fetch returned. -/
structure HIter where
  offset : Nat
  batch : List RawTx
deriving DecidableEq

/-- One recorded iteration of the Discovery paging loop: the offset requested
and what `get_addresses_batch` returned (`none` = the single attempt failed). -/
structure DIter where
  offset : Nat
  fetched : Option (List AddrRec)
deriving DecidableEq

/-- Environment of the History pipeline: for each requested offset, the
attempt outcomes of `get_transactions`, and for each transaction hash, the
attempt outcomes of `get_transaction_events`. -/
structure World where
  txAttempts : Nat → List (FetchResult (List RawTx))
  eventAttempts : String → List (FetchResult (List Event))

/-- Environment of the Discovery pipeline: for each requested offset, the
outcome of the single `get_addresses_batch` attempt, and for each address
hash, the outcome of the single `get_vesting_for_address` attempt. -/
structure DWorld where
  addrBatches : Nat → FetchResult (List AddrRec)
  vestings : String → FetchResult (List VestingRec)

namespace Withdrawals

/-- `get_transactions` (`process_withdrawals.py` lines 34-54): retries forever
on transport errors, sleeping 5 seconds between attempts; the result counts
the backoffs taken. -/
def get_transactions (attempts : List (FetchResult (List RawTx))) :
    Option (List RawTx × Nat) :=
  retryForever attempts

/-- `get_transaction_events` (`process_withdrawals.py` lines 56-70): same
retry-forever skeleton. -/
def get_transaction_events (attempts : List (FetchResult (List Event))) :
    Option (List Event × Nat) :=
  retryForever attempts

/-- The filter of the `withdraw_amount` generator expression
(`process_withdrawals.py` line 90):
`event['type'] == 'withdraw_rewards' and event['data'].get('amount', '').endswith('utia')`. -/
def eventContributes (e : Event) : Bool :=
  e.type == "withdraw_rewards" && pyEndswith (e.amount.getD "") "utia"

/-- The sum of `process_withdrawals.py` lines 87-91:
`sum(int(event['data'].get('amount', '0').rstrip('utia')) for event in events if ...)`.
`none` models the uncaught `ValueError` raised when `int(...)` fails on a
contributing event. -/
def withdrawAmount : List Event → Option Int
  | [] => some 0
  | e :: rest =>
    if eventContributes e then
      match pyInt (rstripChars isUtiaChar (e.amount.getD "0")), withdrawAmount rest with
      | some v, some s => some (v + s)
      | _, _ => none
    else withdrawAmount rest

/-- Modelled from the spec: "strip the suffix" — removal of the final four
characters (the denomination suffix `utia`), as opposed to the code's
character-set `rstrip`. Used only to state the spec side of claim C6. -/
def stripDenomSuffix (s : String) : String := ⟨(s.data.reverse.drop 4).reverse⟩

/-- Modelled from the spec: the contribution of one event per the spec's
words — an event of the reward-withdrawal type whose amount carries the
denomination suffix contributes the integer obtained by stripping the suffix
and parsing; every other event contributes zero. -/
def specEventContribution (e : Event) : Int :=
  if eventContributes e then (pyInt (stripDenomSuffix (e.amount.getD "0"))).getD 0 else 0

/-- Modelled from the spec: the withdrawal amount of a transaction is the sum
of the per-event contributions. -/
def specWithdrawAmount (events : List Event) : Int :=
  (events.map specEventContribution).sum

/-- The `for tx in transactions:` body (`process_withdrawals.py` lines 85-97):
fetch events, derive `withdraw_amount`, annotate the transaction, extend the
running count and total.  `none` propagates a raised `ValueError` or an
events fetch that never succeeds. -/
def processTxs (w : World) (address : String) :
    List RawTx → Option (List ProcessedTx × Nat × Int)
  | [] => some ([], 0, 0)
  | tx :: rest =>
    match get_transaction_events (w.eventAttempts tx.hash) with
    | none => none
    | some (events, _) =>
      match withdrawAmount events with
      | none => none
      | some wa =>
        match processTxs w address rest with
        | none => none
        | some (ps, c, t) => some (⟨tx, wa, address⟩ :: ps, c + 1, t + wa)

/-- The `while True:` paging loop of `process_address`
(`process_withdrawals.py` lines 79-102): fetch a batch at the current offset,
stop on an empty batch, otherwise process it, advance the offset by the
batch's actual length, and stop after processing when the batch was shorter
than `BATCH_SIZE`.  Returns the recorded iterations, `all_transactions`,
`withdraw_count` and `total_withdrawn`. -/
def processAddressLoop (w : World) (address : String) :
    Nat → Nat → Option (List HIter × List ProcessedTx × Nat × Int)
  | 0, _ => none
  | fuel + 1, offset =>
    match get_transactions (w.txAttempts offset) with
    | none => none
    | some (transactions, _) =>
      if transactions.isEmpty then
        some ([⟨offset, transactions⟩], [], 0, 0)
      else
        match processTxs w address transactions with
        | none => none
        | some (txs, cnt, tot) =>
          if transactions.length < BATCH_SIZE then
            some ([⟨offset, transactions⟩], txs, cnt, tot)
          else
            match processAddressLoop w address fuel (offset + transactions.length) with
            | none => none
            | some (iters, txs2, cnt2, tot2) =>
              some (⟨offset, transactions⟩ :: iters, txs ++ txs2, cnt + cnt2, tot + tot2)

/-- `process_address` (`process_withdrawals.py` lines 72-105): the paging loop
started at offset 0. -/
def process_address (w : World) (address : String) (fuel : Nat) :
    Option (List HIter × List ProcessedTx × Nat × Int) :=
  processAddressLoop w address fuel 0

/-- The fixed `fieldnames` list of `write_transactions_to_csv`
(`process_withdrawals.py` lines 114-115). -/
def txFieldnames : List String :=
  ["id", "height", "position", "gas_wanted", "gas_used", "timeout_height", "events_count",
   "messages_count", "hash", "fee", "time", "message_types", "status", "withdraw_amount",
   "address"]

/-- Field access on the transaction dict at the point of writing
(`process_withdrawals.py` lines 122-124): `hash` was overwritten with its
uppercased value, `withdraw_amount` and `address` were added by
`process_address`, every other field comes from the raw transaction, and a
missing field defaults to the empty string (`tx.get(field, '')`). -/
def txLookup (t : ProcessedTx) (field : String) : String :=
  if field = "hash" then pyUpper t.tx.hash
  else if field = "withdraw_amount" then toString t.withdraw_amount
  else if field = "address" then t.address
  else (t.tx.fields.lookup field).getD ""

/-- The `filtered_tx` dict (`process_withdrawals.py` line 124), as the ordered
list of the fixed fields with their written values. -/
def filtered_tx (t : ProcessedTx) : List (String × String) :=
  txFieldnames.map (fun field => (field, txLookup t field))

/-- `write_transactions_to_csv` (`process_withdrawals.py` lines 107-125):
returns unchanged on an empty list; otherwise opens in append mode when the
file exists and write mode otherwise, writes the header iff the file position
is 0, then appends one filtered row per transaction. -/
def write_transactions_to_csv (transactions : List ProcessedTx)
    (file : Option (List (CsvLine (List (String × String))))) :
    Option (List (CsvLine (List (String × String)))) :=
  if transactions.isEmpty then file
  else
    let existing := file.getD []
    let start := if existing.length = 0 then existing ++ [CsvLine.header] else existing
    some (start ++ transactions.map (fun t => CsvLine.row (filtered_tx t)))

/-- `write_summary_to_csv` (`process_withdrawals.py` lines 127-135): same
append-or-create and header-at-position-0 logic, one row per call. -/
def write_summary_to_csv (summary : SummaryRow)
    (file : Option (List (CsvLine SummaryRow))) : Option (List (CsvLine SummaryRow)) :=
  let existing := file.getD []
  let start := if existing.length = 0 then existing ++ [CsvLine.header] else existing
  some (start ++ [CsvLine.row summary])

/-- Effects of one iteration of the driver loop body for a processed row
(`process_withdrawals.py` lines 151-162): write the transaction rows when
there are any, always write the summary row, then save the checkpoint at the
row index. -/
def historyUnitTrace (i : Nat) (address : String) (txs : List ProcessedTx)
    (cnt : Nat) (tot : Int) : List Action :=
  (if txs.isEmpty then [] else [Action.writeTx txs]) ++
    [Action.writeSummary address cnt tot, Action.saveCheckpoint (i : Int)]

/-- The enumeration loop of `process_all_addresses`
(`process_withdrawals.py` lines 147-165): `i` is the current `enumerate`
index, rows with `i <= last_processed_row` are skipped, every other row is
processed and followed by its unit trace.  Returns the processed indices and
the concatenated effect trace; `none` propagates a unit that crashed or never
finished. -/
def driverGo (w : World) (fuel : Nat) (last_processed_row : Int) :
    Nat → List String → Option (List Nat × List Action)
  | _, [] => some ([], [])
  | i, address :: rest =>
    if (i : Int) ≤ last_processed_row then driverGo w fuel last_processed_row (i + 1) rest
    else
      match process_address w address fuel with
      | none => none
      | some (_, txs, cnt, tot) =>
        match driverGo w fuel last_processed_row (i + 1) rest with
        | none => none
        | some (idxs, tr) =>
          some (i :: idxs, historyUnitTrace i address txs cnt tot ++ tr)

/-- `process_all_addresses` (`process_withdrawals.py` lines 137-165): the
enumeration starts at index 0 with the checkpointed `last_processed_row`. -/
def process_all_addresses (w : World) (rows : List String) (last_processed_row : Int)
    (fuel : Nat) : Option (List Nat × List Action) :=
  driverGo w fuel last_processed_row 0 rows

end Withdrawals

namespace Vested

/-- `get_addresses_batch` (`vested_addresses.py` lines 32-45): a SINGLE
attempt; on a transport error it logs and returns `None` — it does not
retry. -/
def get_addresses_batch (attempt : FetchResult (List AddrRec)) : Option (List AddrRec) :=
  match attempt with
  | .ok v => some v
  | .transportError => none

/-- `get_vesting_for_address` (`vested_addresses.py` lines 47-63): a SINGLE
attempt; on a transport error it logs and returns `(hash, None)` — it does
not retry. -/
def get_vesting_for_address (w : DWorld) (address : AddrRec) :
    String × Option (List VestingRec) :=
  match w.vestings address.hash with
  | .ok vs => (address.hash, some vs)
  | .transportError => (address.hash, none)

/-- Construction of one flattened output row
(`vested_addresses.py` lines 75-85). -/
def vestingRow (address_hash : String) (vesting : VestingRec) : VestingRow :=
  ⟨address_hash, vesting.amount, vesting.end_time, vesting.hash, vesting.height,
   vesting.id, vesting.start_time, vesting.time, vesting.type⟩

/-- `process_addresses_batch` (`vested_addresses.py` lines 65-89): one vesting
lookup per address; a failed lookup (`None`) or an empty list contributes no
rows (`if vestings:`); otherwise one row per vesting record.  The thread pool
collects results in completion order; we model input order — none of the
verified claims depends on the order within a batch. -/
def process_addresses_batch (w : DWorld) (addresses : List AddrRec) : List VestingRow :=
  (addresses.map (fun address =>
    match (get_vesting_for_address w address).2 with
    | some vs => if vs.isEmpty then [] else vs.map (vestingRow address.hash)
    | none => [])).flatten

/-- `write_to_csv` (`vested_addresses.py` lines 91-102): append mode when the
file exists, write mode otherwise; the header is written exactly when the
mode is write (`if mode == 'w'`). -/
def write_to_csv (vested_addresses : List VestingRow)
    (file : Option (List (CsvLine VestingRow))) : Option (List (CsvLine VestingRow)) :=
  let existing := file.getD []
  let start := if file.isNone then existing ++ [CsvLine.header] else existing
  some (start ++ vested_addresses.map CsvLine.row)

/-- Effects of one completed iteration of the Discovery loop body
(`vested_addresses.py` lines 118-127): write the batch's vesting rows when
there are any, then save the checkpoint at `offset + BATCH_SIZE` (the offset
was incremented on line 126 before `save_checkpoint(offset)` on line 127). -/
def discoveryUnitTrace (offset : Nat) (vested : List VestingRow) : List Action :=
  (if vested.isEmpty then [] else [Action.writeVesting vested]) ++
    [Action.saveCheckpoint ((offset + BATCH_SIZE : Nat) : Int)]

/-- The `while True:` loop of `process_all_addresses`
(`vested_addresses.py` lines 110-130): fetch a batch with
`get_addresses_batch` (single attempt), break when the result is falsy
(`None` after a failed fetch, or an empty list), otherwise process the batch,
write any vesting rows, advance the offset by `BATCH_SIZE` and save the
checkpoint.  Records every fetch performed, including the one that broke the
loop. -/
def discoveryLoop (w : DWorld) : Nat → Nat → Option (List DIter × List Action)
  | 0, _ => none
  | fuel + 1, offset =>
    match get_addresses_batch (w.addrBatches offset) with
    | none => some ([⟨offset, none⟩], [])
    | some [] => some ([⟨offset, some []⟩], [])
    | some (a :: as) =>
      let vested := process_addresses_batch w (a :: as)
      match discoveryLoop w fuel (offset + BATCH_SIZE) with
      | none => none
      | some (iters, tr) =>
        some (⟨offset, some (a :: as)⟩ :: iters, discoveryUnitTrace offset vested ++ tr)

/-- `process_all_addresses` (`vested_addresses.py` lines 104-135): the loop
started at the checkpointed offset. -/
def process_all_addresses (w : DWorld) (checkpoint_offset : Nat) (fuel : Nat) :
    Option (List DIter × List Action) :=
  discoveryLoop w fuel checkpoint_offset

end Vested

/-! Helper lemmas about the amount-string manipulation. -/

/-- None of the characters of the `'utia'` strip set is a decimal digit. -/
theorem isUtiaChar_eq_false_of_isDigit (c : Char) (h : c.isDigit = true) :
    isUtiaChar c = false := by
  by_contra hne
  have ht : isUtiaChar c = true := by
    cases hb : isUtiaChar c
    · exact absurd hb hne
    · rfl
  have hmem : ((c = 'u' ∨ c = 't') ∨ c = 'i') ∨ c = 'a' := by
    simpa [isUtiaChar] using ht
  rcases hmem with ((rfl | rfl) | rfl) | rfl <;> exact absurd h (by decide)

/-- On a nonempty all-digit prefix followed by the literal suffix `utia`,
`rstrip('utia')` removes exactly the suffix. -/
theorem rstripChars_append_utia (t : String) (hne : t.data ≠ [])
    (hd : t.data.all Char.isDigit = true) :
    rstripChars isUtiaChar (t ++ "utia") = t := by
  obtain ⟨d, l, hrev⟩ : ∃ d l, t.data.reverse = d :: l := by
    rcases hr : t.data.reverse with _ | ⟨d, l⟩
    · exact absurd (List.reverse_eq_nil_iff.mp hr) hne
    · exact ⟨d, l, rfl⟩
  have hdmem : d ∈ t.data := by
    have : d ∈ t.data.reverse := by
      rw [hrev]; exact List.mem_cons_self d l
    exact List.mem_reverse.mp this
  have hddig : d.isDigit = true := List.all_eq_true.mp hd d hdmem
  have hdnot : isUtiaChar d = false := isUtiaChar_eq_false_of_isDigit d hddig
  unfold rstripChars
  rw [String.data_append]
  have h4 : (t.data ++ ("utia" : String).data).reverse
      = 'a' :: 'i' :: 't' :: 'u' :: t.data.reverse := by
    rw [List.reverse_append]; rfl
  rw [h4]
  have hdw : List.dropWhile isUtiaChar ('a' :: 'i' :: 't' :: 'u' :: t.data.reverse)
      = List.dropWhile isUtiaChar t.data.reverse := rfl
  rw [hdw, hrev]
  rw [List.dropWhile_cons]
  rw [hdnot]
  simp only [Bool.false_eq_true, if_false]
  rw [← hrev, List.reverse_reverse]

/-- Stripping the 4-character denomination suffix from `t ++ "utia"` gives
back `t`. -/
theorem stripDenomSuffix_append_utia (t : String) :
    Withdrawals.stripDenomSuffix (t ++ "utia") = t := by
  unfold Withdrawals.stripDenomSuffix
  rw [String.data_append]
  have h4 : (t.data ++ ("utia" : String).data).reverse
      = 'a' :: 'i' :: 't' :: 'u' :: t.data.reverse := by
    rw [List.reverse_append]; rfl
  rw [h4]
  show (⟨t.data.reverse.reverse⟩ : String) = t
  rw [List.reverse_reverse]

/-- Unfolding equation of `pyInt` on a nonempty character list. -/
theorem pyInt_cons (c : Char) (cs : List Char) (s : String) (h : s.data = c :: cs) :
    pyInt s
      = if c = '-' then
          (if !cs.isEmpty && cs.all Char.isDigit then some (-(digitsVal cs : Int)) else none)
        else if (c :: cs).all Char.isDigit then some ((digitsVal (c :: cs) : Int)) else none := by
  unfold pyInt
  rw [h]

/-- Python `int` succeeds on a nonempty digit string. -/
theorem pyInt_all_digits (t : String) (hne : t.data ≠ [])
    (hd : t.data.all Char.isDigit = true) :
    pyInt t = some ((digitsVal t.data : Int)) := by
  obtain ⟨c, cs, hcs⟩ := List.exists_cons_of_ne_nil hne
  have hcd : c.isDigit = true := by
    refine List.all_eq_true.mp hd c ?_
    rw [hcs]; exact List.mem_cons_self c cs
  have hcne : ¬ (c = '-') := by
    rintro rfl; exact absurd hcd (by decide)
  rw [pyInt_cons c cs t hcs, if_neg hcne, ← hcs]
  simp [hd]

/-- Sum decomposition of the spec-side withdrawal amount. -/
theorem specWithdrawAmount_cons (e : Event) (rest : List Event) :
    Withdrawals.specWithdrawAmount (e :: rest)
      = Withdrawals.specEventContribution e + Withdrawals.specWithdrawAmount rest := by
  simp [Withdrawals.specWithdrawAmount]

/-- C6: for every event list whose contributing events carry a well-formed
amount (a nonempty digit string followed by the denomination suffix `utia`),
the code's derived `withdraw_amount` equals the spec's description: the sum,
over exactly the events whose type is `withdraw_rewards` and whose amount
ends with `utia`, of the integer obtained by stripping the suffix and
parsing; every other event contributes zero. -/
theorem c6_withdraw_amount_derivation (events : List Event)
    (h : ∀ e ∈ events, Withdrawals.eventContributes e = true →
      ∃ t : String, e.amount = some (t ++ "utia") ∧ t.data ≠ [] ∧ t.data.all Char.isDigit = true) :
    Withdrawals.withdrawAmount events = some (Withdrawals.specWithdrawAmount events) := by
  induction events with
  | nil => rfl
  | cons e rest ih =>
    have hrest : ∀ x ∈ rest, Withdrawals.eventContributes x = true →
        ∃ t : String, x.amount = some (t ++ "utia") ∧ t.data ≠ [] ∧
          t.data.all Char.isDigit = true :=
      fun x hx hc => h x (List.mem_cons_of_mem e hx) hc
    cases hc : Withdrawals.eventContributes e with
    | true =>
      obtain ⟨t, ha, hne, hd⟩ := h e (List.mem_cons_self e rest) hc
      have hg0 : e.amount.getD "0" = t ++ "utia" := by rw [ha]; rfl
      have h1 : pyInt (rstripChars isUtiaChar (e.amount.getD "0"))
          = some ((digitsVal t.data : Int)) := by
        rw [hg0, rstripChars_append_utia t hne hd]
        exact pyInt_all_digits t hne hd
      have h2 : Withdrawals.specEventContribution e = ((digitsVal t.data : Int)) := by
        unfold Withdrawals.specEventContribution
        rw [if_pos hc, hg0, stripDenomSuffix_append_utia t, pyInt_all_digits t hne hd]
        rfl
      calc Withdrawals.withdrawAmount (e :: rest)
          = some (((digitsVal t.data : Int)) + Withdrawals.specWithdrawAmount rest) := by
            simp only [Withdrawals.withdrawAmount, hc, if_true, h1, ih hrest]
        _ = some (Withdrawals.specWithdrawAmount (e :: rest)) := by
            rw [specWithdrawAmount_cons, h2]
    | false =>
      have hstep : Withdrawals.withdrawAmount (e :: rest) = Withdrawals.withdrawAmount rest := by
        simp [Withdrawals.withdrawAmount, hc]
      have hzero : Withdrawals.specEventContribution e = 0 := by
        unfold Withdrawals.specEventContribution
        rw [if_neg]
        simp [hc]
      rw [hstep, ih hrest, specWithdrawAmount_cons, hzero, zero_add]

/-- The two events of the spec's worked example. -/
def c6ExampleEvents : List Event :=
  [⟨"withdraw_rewards", some "500utia"⟩, ⟨"other", some "999utia"⟩]

/-- Witness for C6: the spec's worked example evaluates to 500. -/
theorem c6_withdraw_amount_derivation_witness :
    Withdrawals.withdrawAmount c6ExampleEvents = some 500 := by
  have hh : ∀ e ∈ c6ExampleEvents, Withdrawals.eventContributes e = true →
      ∃ t : String, e.amount = some (t ++ "utia") ∧ t.data ≠ [] ∧
        t.data.all Char.isDigit = true := by
    intro e he hc
    rcases List.mem_cons.mp he with rfl | he2
    · exact ⟨"500", by decide, by decide, by decide⟩
    · rcases List.mem_cons.mp he2 with rfl | he3
      · exact absurd hc (by decide)
      · exact absurd he3 (List.not_mem_nil e)
  have h := c6_withdraw_amount_derivation c6ExampleEvents hh
  rw [h]
  decide

/-- C7: evaluation of the code at the claim's inputs.  An amount WITHOUT the
`utia` suffix (`"notanumber"`) is filtered out and contributes zero, as the
claim says; but an amount WITH the suffix whose remainder fails integer
parsing makes the generator's `int(...)` raise an uncaught `ValueError`
(modelled as `none`), aborting the computation instead of contributing
zero — the code contradicts the spec's stated zero-contribution policy. -/
theorem c7_malformed_amount_crash :
    Withdrawals.withdrawAmount [⟨"withdraw_rewards", some "12x3utia"⟩] = none
    ∧ Withdrawals.withdrawAmount [⟨"withdraw_rewards", some "notanumber"⟩] = some 0 :=
  ⟨rfl, rfl⟩

/-- C9: the `hash` field written to the transactions sink is the uppercased
transaction hash; in particular `"abc123"` is written as `"ABC123"`. -/
theorem c9_hash_uppercase :
    (∀ t : ProcessedTx,
      (Withdrawals.filtered_tx t).lookup "hash" = some (pyUpper t.tx.hash))
    ∧ (∀ t : ProcessedTx, t.tx.hash = "abc123" →
      (Withdrawals.filtered_tx t).lookup "hash" = some "ABC123") := by
  constructor
  · intro t
    rfl
  · intro t h
    have h1 : (Withdrawals.filtered_tx t).lookup "hash" = some (pyUpper t.tx.hash) := rfl
    rw [h1, h]
    rfl

/-- A concrete transaction with the example hash. -/
def c9ExampleTx : ProcessedTx := ⟨⟨"abc123", []⟩, 0, "addr"⟩

/-- Witness for C9 at the spec's example hash. -/
theorem c9_hash_uppercase_witness :
    (Withdrawals.filtered_tx c9ExampleTx).lookup "hash" = some "ABC123" :=
  c9_hash_uppercase.2 c9ExampleTx rfl

/-! Helper lemmas about the CSV sinks. -/

/-- First call to the transactions sink on a non-existent file. -/
theorem write_transactions_fresh (p : List ProcessedTx) (hp : p ≠ []) :
    Withdrawals.write_transactions_to_csv p none
      = some (CsvLine.header :: p.map (fun t => CsvLine.row (Withdrawals.filtered_tx t))) := by
  unfold Withdrawals.write_transactions_to_csv
  rw [if_neg (by simp [hp])]
  simp

/-- Subsequent call to the transactions sink on a file that already starts
with the header. -/
theorem write_transactions_append (p : List ProcessedTx) (hp : p ≠ [])
    (rs : List (CsvLine (List (String × String)))) :
    Withdrawals.write_transactions_to_csv p (some (CsvLine.header :: rs))
      = some (CsvLine.header ::
          (rs ++ p.map (fun t => CsvLine.row (Withdrawals.filtered_tx t)))) := by
  unfold Withdrawals.write_transactions_to_csv
  rw [if_neg (by simp [hp])]
  simp

/-- Folding further transaction-sink calls over a headed file. -/
theorem write_transactions_foldl (payloads : List (List ProcessedTx)) :
    ∀ rs, (∀ p ∈ payloads, p ≠ []) →
      payloads.foldl (fun f p => Withdrawals.write_transactions_to_csv p f)
          (some (CsvLine.header :: rs))
        = some (CsvLine.header ::
            (rs ++ payloads.flatten.map (fun t => CsvLine.row (Withdrawals.filtered_tx t)))) := by
  induction payloads with
  | nil => intro rs _; simp
  | cons p ps ih =>
    intro rs hall
    rw [List.foldl_cons, write_transactions_append p (hall p (List.mem_cons_self p ps)) rs,
      ih (rs ++ p.map (fun t => CsvLine.row (Withdrawals.filtered_tx t)))
        (fun q hq => hall q (List.mem_cons_of_mem p hq))]
    simp [List.map_append, List.append_assoc]

/-- First call to the summary sink on a non-existent file. -/
theorem write_summary_fresh (s : SummaryRow) :
    Withdrawals.write_summary_to_csv s none
      = some [CsvLine.header, CsvLine.row s] := by
  unfold Withdrawals.write_summary_to_csv
  simp

/-- Subsequent call to the summary sink on a headed file. -/
theorem write_summary_append (s : SummaryRow) (rs : List (CsvLine SummaryRow)) :
    Withdrawals.write_summary_to_csv s (some (CsvLine.header :: rs))
      = some (CsvLine.header :: (rs ++ [CsvLine.row s])) := by
  unfold Withdrawals.write_summary_to_csv
  simp

/-- Folding further summary-sink calls over a headed file. -/
theorem write_summary_foldl (ss : List SummaryRow) :
    ∀ rs, ss.foldl (fun f s => Withdrawals.write_summary_to_csv s f)
          (some (CsvLine.header :: rs))
        = some (CsvLine.header :: (rs ++ ss.map CsvLine.row)) := by
  induction ss with
  | nil => intro rs; simp
  | cons s ss ih =>
    intro rs
    rw [List.foldl_cons, write_summary_append s rs, ih (rs ++ [CsvLine.row s])]
    simp

/-- First call to the vesting sink on a non-existent file. -/
theorem write_vesting_fresh (p : List VestingRow) :
    Vested.write_to_csv p none = some (CsvLine.header :: p.map CsvLine.row) := by
  unfold Vested.write_to_csv
  simp

/-- Subsequent call to the vesting sink on a headed file. -/
theorem write_vesting_append (p : List VestingRow) (rs : List (CsvLine VestingRow)) :
    Vested.write_to_csv p (some (CsvLine.header :: rs))
      = some (CsvLine.header :: (rs ++ p.map CsvLine.row)) := by
  unfold Vested.write_to_csv
  simp

/-- Folding further vesting-sink calls over a headed file. -/
theorem write_vesting_foldl (payloads : List (List VestingRow)) :
    ∀ rs, payloads.foldl (fun f p => Vested.write_to_csv p f)
          (some (CsvLine.header :: rs))
        = some (CsvLine.header :: (rs ++ payloads.flatten.map CsvLine.row)) := by
  induction payloads with
  | nil => intro rs; simp
  | cons p ps ih =>
    intro rs
    rw [List.foldl_cons, write_vesting_append p rs, ih (rs ++ p.map CsvLine.row)]
    simp [List.map_append, List.append_assoc]

/-- Data rows contribute no header lines. -/
theorem headerCount_row_map {ρ α : Type} (f : α → ρ) (xs : List α) :
    headerCount (xs.map (fun x => CsvLine.row (f x))) = 0 := by
  induction xs with
  | nil => rfl
  | cons x xs ih =>
    simp only [List.map_cons, headerCount, List.filter_cons, isHeader]
    simpa [headerCount] using ih

/-- C8: for every sequence of (nonempty, as the drivers always issue) write
calls starting from a non-existent file, the first call creates the file with
the header first, every later call appends rows without another header, and
the resulting file holds exactly one header line — for each of the three
sinks (transactions, summary, vesting). -/
theorem c8_csv_header_invariant :
    (∀ payloads : List (List ProcessedTx), payloads ≠ [] → (∀ p ∈ payloads, p ≠ []) →
      payloads.foldl (fun f p => Withdrawals.write_transactions_to_csv p f) none
        = some (CsvLine.header ::
            payloads.flatten.map (fun t => CsvLine.row (Withdrawals.filtered_tx t))))
    ∧ (∀ ss : List SummaryRow, ss ≠ [] →
      ss.foldl (fun f s => Withdrawals.write_summary_to_csv s f) none
        = some (CsvLine.header :: ss.map CsvLine.row))
    ∧ (∀ payloads : List (List VestingRow), payloads ≠ [] →
      payloads.foldl (fun f p => Vested.write_to_csv p f) none
        = some (CsvLine.header :: payloads.flatten.map CsvLine.row))
    ∧ (∀ (ρ α : Type) (f : α → ρ) (xs : List α),
      headerCount (CsvLine.header :: xs.map (fun x => CsvLine.row (f x))) = 1) := by
  refine ⟨?_, ?_, ?_, ?_⟩
  · intro payloads hne hall
    obtain ⟨p, ps, rfl⟩ := List.exists_cons_of_ne_nil hne
    rw [List.foldl_cons, write_transactions_fresh p (hall p (List.mem_cons_self p ps)),
      show (CsvLine.header :: p.map (fun t => CsvLine.row (Withdrawals.filtered_tx t)))
          = CsvLine.header :: p.map (fun t => CsvLine.row (Withdrawals.filtered_tx t)) from rfl,
      write_transactions_foldl ps (p.map (fun t => CsvLine.row (Withdrawals.filtered_tx t)))
        (fun q hq => hall q (List.mem_cons_of_mem p hq))]
    simp [List.map_append]
  · intro ss hne
    obtain ⟨s, ss', rfl⟩ := List.exists_cons_of_ne_nil hne
    rw [List.foldl_cons, write_summary_fresh s]
    have : ([CsvLine.header, CsvLine.row s] : List (CsvLine SummaryRow))
        = CsvLine.header :: [CsvLine.row s] := rfl
    rw [this, write_summary_foldl ss' [CsvLine.row s]]
    simp
  · intro payloads hne
    obtain ⟨p, ps, rfl⟩ := List.exists_cons_of_ne_nil hne
    rw [List.foldl_cons, write_vesting_fresh p, write_vesting_foldl ps (p.map CsvLine.row)]
    simp [List.map_append]
  · intro ρ α f xs
    have h0 := headerCount_row_map f xs
    simp only [headerCount, List.filter_cons, isHeader] at h0 ⊢
    simpa using h0

/-- Two concrete single-transaction payloads for the C8 witness. -/
def c8ExamplePayloads : List (List ProcessedTx) :=
  [[⟨⟨"h1", []⟩, 1, "a"⟩], [⟨⟨"h2", []⟩, 2, "a"⟩]]

/-- Witness for C8: two appends to a fresh transactions sink yield the header
followed by the two data rows. -/
theorem c8_csv_header_invariant_witness :
    c8ExamplePayloads.foldl (fun f p => Withdrawals.write_transactions_to_csv p f) none
      = some (CsvLine.header ::
          c8ExamplePayloads.flatten.map (fun t => CsvLine.row (Withdrawals.filtered_tx t))) :=
  c8_csv_header_invariant.1 c8ExamplePayloads (by decide) (by decide)

/-! Claim C1: checkpoint ordering inside one unit of work. -/

/-- C1: in both pipelines the effect trace of one unit of work consists of
its sink writes followed by the checkpoint save as its LAST action: the
checkpoint never advances before the unit's sink writes (the transaction
rows when present and the summary row for History; the vesting rows when
present for Discovery). -/
theorem c1_checkpoint_after_sink_writes :
    (∀ (i : Nat) (address : String) (txs : List ProcessedTx) (cnt : Nat) (tot : Int),
      Withdrawals.historyUnitTrace i address txs cnt tot
          = (Withdrawals.historyUnitTrace i address txs cnt tot).dropLast
              ++ [Action.saveCheckpoint (i : Int)]
        ∧ (∀ a ∈ (Withdrawals.historyUnitTrace i address txs cnt tot).dropLast,
            isSinkWrite a = true)
        ∧ Action.writeSummary address cnt tot
            ∈ (Withdrawals.historyUnitTrace i address txs cnt tot).dropLast
        ∧ (txs ≠ [] → Action.writeTx txs
            ∈ (Withdrawals.historyUnitTrace i address txs cnt tot).dropLast))
    ∧ (∀ (offset : Nat) (vested : List VestingRow),
      Vested.discoveryUnitTrace offset vested
          = (Vested.discoveryUnitTrace offset vested).dropLast
              ++ [Action.saveCheckpoint ((offset + BATCH_SIZE : Nat) : Int)]
        ∧ (∀ a ∈ (Vested.discoveryUnitTrace offset vested).dropLast, isSinkWrite a = true)
        ∧ (vested ≠ [] → Action.writeVesting vested
            ∈ (Vested.discoveryUnitTrace offset vested).dropLast)) := by
  constructor
  · intro i address txs cnt tot
    cases htx : txs.isEmpty with
    | true =>
      have hnil : txs = [] := by simpa using htx
      refine ⟨?_, ?_, ?_, ?_⟩
      · simp [Withdrawals.historyUnitTrace, htx, List.dropLast]
      · intro a ha
        simp [Withdrawals.historyUnitTrace, htx, List.dropLast] at ha
        simp [ha, isSinkWrite]
      · simp [Withdrawals.historyUnitTrace, htx, List.dropLast]
      · intro hne; exact absurd hnil hne
    | false =>
      refine ⟨?_, ?_, ?_, ?_⟩
      · simp [Withdrawals.historyUnitTrace, htx, List.dropLast]
      · intro a ha
        simp [Withdrawals.historyUnitTrace, htx, List.dropLast] at ha
        rcases ha with rfl | rfl <;> simp [isSinkWrite]
      · simp [Withdrawals.historyUnitTrace, htx, List.dropLast]
      · intro _
        simp [Withdrawals.historyUnitTrace, htx, List.dropLast]
  · intro offset vested
    cases hv : vested.isEmpty with
    | true =>
      have hnil : vested = [] := by simpa using hv
      refine ⟨?_, ?_, ?_⟩
      · simp [Vested.discoveryUnitTrace, hv, List.dropLast]
      · intro a ha
        simp [Vested.discoveryUnitTrace, hv, List.dropLast] at ha
      · intro hne; exact absurd hnil hne
    | false =>
      refine ⟨?_, ?_, ?_⟩
      · simp [Vested.discoveryUnitTrace, hv, List.dropLast]
      · intro a ha
        simp [Vested.discoveryUnitTrace, hv, List.dropLast] at ha
        simp [ha, isSinkWrite]
      · intro _
        simp [Vested.discoveryUnitTrace, hv, List.dropLast]

/-- A concrete processed transaction for the C1 witness. -/
def c1ExampleTx : ProcessedTx := ⟨⟨"h", []⟩, 500, "a"⟩

/-- Witness for C1: with one transaction row, the transactions-sink write
occurs strictly before the checkpoint save of the unit. -/
theorem c1_checkpoint_after_sink_writes_witness :
    Action.writeTx [c1ExampleTx]
      ∈ (Withdrawals.historyUnitTrace 0 "a" [c1ExampleTx] 1 500).dropLast :=
  (c1_checkpoint_after_sink_writes.1 0 "a" [c1ExampleTx] 1 500).2.2.2 (by decide)

/-! Claim C10: summary consistency. -/

/-- The per-batch transaction processing counts one per transaction and sums
exactly the derived withdrawal amounts of the transactions it returns. -/
theorem processTxs_spec (w : World) (address : String) :
    ∀ (l : List RawTx) (ps : List ProcessedTx) (c : Nat) (t : Int),
      Withdrawals.processTxs w address l = some (ps, c, t) →
      c = ps.length ∧ t = (ps.map (fun p => p.withdraw_amount)).sum := by
  intro l
  induction l with
  | nil =>
    intro ps c t h
    simp only [Withdrawals.processTxs, Option.some.injEq, Prod.mk.injEq] at h
    obtain ⟨h1, h2, h3⟩ := h
    subst h1; subst h2; subst h3
    exact ⟨rfl, rfl⟩
  | cons tx rest ih =>
    intro ps c t h
    simp only [Withdrawals.processTxs] at h
    split at h
    · exact Option.noConfusion h
    next events slept hev =>
      split at h
      · exact Option.noConfusion h
      next wa hwa =>
        split at h
        · exact Option.noConfusion h
        next ps' c' t' hrest =>
          simp only [Option.some.injEq, Prod.mk.injEq] at h
          obtain ⟨h1, h2, h3⟩ := h
          subst h1; subst h2; subst h3
          obtain ⟨ih1, ih2⟩ := ih ps' c' t' hrest
          constructor
          · simp [ih1]
          · simp [ih2]
            ring

/-- Accumulated count and total of the whole paging loop agree with the
returned transaction list. -/
theorem processAddressLoop_spec (w : World) (address : String) :
    ∀ (fuel offset : Nat) (iters : List HIter) (txs : List ProcessedTx) (cnt : Nat) (tot : Int),
      Withdrawals.processAddressLoop w address fuel offset = some (iters, txs, cnt, tot) →
      cnt = txs.length ∧ tot = (txs.map (fun p => p.withdraw_amount)).sum := by
  intro fuel
  induction fuel with
  | zero =>
    intro offset iters txs cnt tot h
    simp [Withdrawals.processAddressLoop] at h
  | succ fuel ih =>
    intro offset iters txs cnt tot h
    simp only [Withdrawals.processAddressLoop] at h
    split at h
    · exact Option.noConfusion h
    next transactions slept hga =>
      split at h
      next hemp =>
        simp only [Option.some.injEq, Prod.mk.injEq] at h
        obtain ⟨h1, h2, h3, h4⟩ := h
        subst h2; subst h3; subst h4
        exact ⟨rfl, rfl⟩
      next hemp =>
        split at h
        · exact Option.noConfusion h
        next txs1 cnt1 tot1 hpt =>
          obtain ⟨hs1, hs2⟩ := processTxs_spec w address transactions txs1 cnt1 tot1 hpt
          split at h
          next hshort =>
            simp only [Option.some.injEq, Prod.mk.injEq] at h
            obtain ⟨h1, h2, h3, h4⟩ := h
            subst h2; subst h3; subst h4
            exact ⟨hs1, hs2⟩
          next hshort =>
            split at h
            · exact Option.noConfusion h
            next iters2 txs2 cnt2 tot2 hrec =>
              simp only [Option.some.injEq, Prod.mk.injEq] at h
              obtain ⟨h1, h2, h3, h4⟩ := h
              subst h2; subst h3; subst h4
              obtain ⟨ih1, ih2⟩ := ih (offset + transactions.length) iters2 txs2 cnt2 tot2 hrec
              constructor
              · simp [hs1, ih1]
              · simp [hs2, ih2]

/-- C10: for every successfully processed address, the summary row is
consistent with the transaction rows: `withdraw_count` is the number of
transactions fetched (zero-amount ones included), `sum_withdrawn_amount` is
the sum of exactly their `withdraw_amount` values; the summary row is always
written in the unit trace, and when the address has no transactions no
transactions-sink write appears in the unit trace. -/
theorem c10_summary_consistency :
    ∀ (w : World) (address : String) (fuel : Nat) (iters : List HIter)
      (txs : List ProcessedTx) (cnt : Nat) (tot : Int),
      Withdrawals.process_address w address fuel = some (iters, txs, cnt, tot) →
      cnt = txs.length
      ∧ tot = (txs.map (fun p => p.withdraw_amount)).sum
      ∧ (∀ i : Nat, Action.writeSummary address cnt tot
          ∈ Withdrawals.historyUnitTrace i address txs cnt tot)
      ∧ (txs = [] → ∀ (i : Nat), ∀ a ∈ Withdrawals.historyUnitTrace i address txs cnt tot,
          isWriteTx a = false)
      ∧ (txs ≠ [] → ∀ i : Nat, Action.writeTx txs
          ∈ Withdrawals.historyUnitTrace i address txs cnt tot) := by
  intro w address fuel iters txs cnt tot h
  obtain ⟨h1, h2⟩ := processAddressLoop_spec w address fuel 0 iters txs cnt tot h
  refine ⟨h1, h2, ?_, ?_, ?_⟩
  · intro i
    cases htx : txs.isEmpty <;> simp [Withdrawals.historyUnitTrace, htx]
  · intro hnil i a ha
    subst hnil
    simp [Withdrawals.historyUnitTrace] at ha
    rcases ha with rfl | rfl <;> rfl
  · intro hne i
    have htx : txs.isEmpty = false := by
      cases htx : txs.isEmpty
      · rfl
      · exact absurd (by simpa using htx) hne
    simp [Withdrawals.historyUnitTrace, htx]

/-- A concrete raw transaction for the C10 witness. -/
def c10Tx : RawTx := ⟨"h1", []⟩

/-- A concrete History world for the C10 witness: one transaction at offset 0
with one 500utia reward-withdrawal event. -/
def c10World : World :=
  ⟨fun offset => if offset = 0 then [FetchResult.ok [c10Tx]] else [FetchResult.ok []],
   fun _ => [FetchResult.ok [⟨"withdraw_rewards", some "500utia"⟩]]⟩

/-- Witness for C10: in the concrete run the total equals the sum of the
written rows' amounts. -/
theorem c10_summary_consistency_witness :
    (500 : Int) = (([⟨c10Tx, 500, "a"⟩] : List ProcessedTx).map
      (fun p => p.withdraw_amount)).sum :=
  (c10_summary_consistency c10World "a" 1 [⟨0, [c10Tx]⟩] [⟨c10Tx, 500, "a"⟩] 1 500 rfl).2.1

/-! Claim C5: retry policy of the fetch layer. -/

/-- When the retry-forever skeleton returns, it returns the FIRST successful
attempt's body, after one fixed-backoff sleep per preceding failed attempt. -/
theorem retryForever_spec {α : Type} :
    ∀ (attempts : List (FetchResult α)) (v : α) (n : Nat),
      retryForever attempts = some (v, n) →
      attempts[n]? = some (FetchResult.ok v)
      ∧ ∀ i, i < n → attempts[i]? = some FetchResult.transportError := by
  intro attempts
  induction attempts with
  | nil => intro v n h; simp [retryForever] at h
  | cons a rest ih =>
    intro v n h
    cases a with
    | ok w =>
      simp only [retryForever, Option.some.injEq, Prod.mk.injEq] at h
      obtain ⟨h1, h2⟩ := h
      subst h1; subst h2
      exact ⟨by simp, fun i hi => absurd hi (Nat.not_lt_zero i)⟩
    | transportError =>
      simp only [retryForever] at h
      cases hr : retryForever rest with
      | none => rw [hr] at h; simp at h
      | some pr =>
        obtain ⟨v', n'⟩ := pr
        rw [hr] at h
        simp only [Option.map_some', Option.some.injEq, Prod.mk.injEq] at h
        obtain ⟨h1, h2⟩ := h
        subst h1; subst h2
        obtain ⟨ih1, ih2⟩ := ih v' n' hr
        constructor
        · simpa using ih1
        · intro i hi
          cases i with
          | zero => simp
          | succ j =>
            have : j < n' := by omega
            simpa using ih2 j this

/-- When every attempt fails, the retry-forever skeleton never returns. -/
theorem retryForever_all_err {α : Type} :
    ∀ attempts : List (FetchResult α),
      (∀ a ∈ attempts, a = FetchResult.transportError) → retryForever attempts = none := by
  intro attempts
  induction attempts with
  | nil => intro _; rfl
  | cons a rest ih =>
    intro hall
    have ha : a = FetchResult.transportError := hall a (List.mem_cons_self a rest)
    subst ha
    simp only [retryForever]
    rw [ih (fun x hx => hall x (List.mem_cons_of_mem _ hx))]
    rfl

/-- A Discovery world in which every attempt fails at the transport level. -/
def cexErrDWorld : DWorld :=
  ⟨fun _ => FetchResult.transportError, fun _ => FetchResult.transportError⟩

/-- C5 counterexample: in the Discovery pipeline a single transport error is
NOT retried: `get_addresses_batch` returns the error value `None` to its
caller, `get_vesting_for_address` returns `(hash, None)`, and the driver loop
then treats the `None` as end-of-data and stops.  This refutes the claim that
every fetch in the system retries indefinitely and never surfaces failures. -/
theorem c5_discovery_fetch_surfaces_error :
    Vested.get_addresses_batch (FetchResult.transportError) = none
    ∧ Vested.get_vesting_for_address cexErrDWorld ⟨"a1"⟩ = ("a1", none)
    ∧ Vested.discoveryLoop cexErrDWorld 1 0 = some ([⟨0, none⟩], []) :=
  ⟨rfl, rfl, rfl⟩

/-- C5 amended: the History pipeline's fetches (`get_transactions`,
`get_transaction_events`) retry indefinitely with a fixed backoff and never
surface a transport error; the Discovery pipeline's fetches perform a single
attempt and return an error value to the caller on failure. -/
theorem c5_retry_policy_amended :
    (∀ (attempts : List (FetchResult (List RawTx))) (v : List RawTx) (n : Nat),
      Withdrawals.get_transactions attempts = some (v, n) →
        attempts[n]? = some (FetchResult.ok v)
        ∧ ∀ i, i < n → attempts[i]? = some FetchResult.transportError)
    ∧ (∀ attempts : List (FetchResult (List RawTx)),
      (∀ a ∈ attempts, a = FetchResult.transportError) →
        Withdrawals.get_transactions attempts = none)
    ∧ (∀ (attempts : List (FetchResult (List Event))) (v : List Event) (n : Nat),
      Withdrawals.get_transaction_events attempts = some (v, n) →
        attempts[n]? = some (FetchResult.ok v)
        ∧ ∀ i, i < n → attempts[i]? = some FetchResult.transportError)
    ∧ (∀ v : List AddrRec, Vested.get_addresses_batch (FetchResult.ok v) = some v)
    ∧ Vested.get_addresses_batch (FetchResult.transportError) = none := by
  refine ⟨?_, ?_, ?_, ?_, rfl⟩
  · intro attempts v n h
    exact retryForever_spec attempts v n h
  · intro attempts hall
    exact retryForever_all_err attempts hall
  · intro attempts v n h
    exact retryForever_spec attempts v n h
  · intro v
    rfl

/-- Witness for the amended C5: after one failed attempt, the second attempt
is the one whose body `get_transactions` returns. -/
theorem c5_retry_policy_amended_witness :
    ([FetchResult.transportError, FetchResult.ok ([] : List RawTx)])[1]?
      = some (FetchResult.ok ([] : List RawTx)) :=
  (c5_retry_policy_amended.1 [FetchResult.transportError, FetchResult.ok []] [] 1 rfl).1

/-! Claim C2: resume correctness of the History driver. -/

/-- The indices the driver processes are exactly the enumeration range
filtered by `last_processed_row < index`. -/
theorem driverGo_idxs (w : World) (fuel : Nat) (k : Int) :
    ∀ (rows : List String) (i : Nat) (idxs : List Nat) (tr : List Action),
      Withdrawals.driverGo w fuel k i rows = some (idxs, tr) →
      idxs = (List.range' i rows.length).filter (fun j : Nat => decide (k < (j : Int))) := by
  intro rows
  induction rows with
  | nil =>
    intro i idxs tr h
    simp only [Withdrawals.driverGo, Option.some.injEq, Prod.mk.injEq] at h
    obtain ⟨h1, h2⟩ := h
    subst h1
    rfl
  | cons address rest ih =>
    intro i idxs tr h
    simp only [Withdrawals.driverGo] at h
    split at h
    next hle =>
      have hfilter : decide (k < (i : Int)) = false := by
        simp [not_lt.mpr hle]
      have hrange : List.range' i (address :: rest).length
          = i :: List.range' (i + 1) rest.length := by
        rw [List.length_cons]
        rfl
      rw [ih (i + 1) idxs tr h, hrange, List.filter_cons, hfilter]
      simp
    next hle =>
      split at h
      · exact Option.noConfusion h
      next iters txs cnt tot hpa =>
        split at h
        · exact Option.noConfusion h
        next idxs2 tr2 hdg =>
          simp only [Option.some.injEq, Prod.mk.injEq] at h
          obtain ⟨h1, h2⟩ := h
          subst h1
          have hfilter : decide (k < (i : Int)) = true := by
            simp [not_le.mp hle]
          have hrange : List.range' i (address :: rest).length
              = i :: List.range' (i + 1) rest.length := by
            rw [List.length_cons]
            rfl
          rw [hrange, List.filter_cons, hfilter, ih (i + 1) idxs2 tr2 hdg]
          simp

/-- Filtering the enumeration range by a lower bound yields the tail range. -/
theorem range_filter_ge (m : Nat) :
    ∀ n : Nat, (List.range n).filter (fun j => decide (m ≤ j)) = List.range' m (n - m) := by
  intro n
  induction n with
  | zero => simp
  | succ n ih =>
    rw [List.range_succ, List.filter_append, ih]
    by_cases hm : m ≤ n
    · have h1 : List.filter (fun j => decide (m ≤ j)) [n] = [n] := by simp [hm]
      rw [h1]
      have hsub : n + 1 - m = (n - m) + 1 := by omega
      rw [hsub, List.range'_concat]
      have h2 : m + 1 * (n - m) = n := by omega
      rw [h2]
    · have h1 : List.filter (fun j => decide (m ≤ j)) [n] = [] := by simp [hm]
      rw [h1, List.append_nil]
      have hsub : n + 1 - m = n - m := by omega
      rw [hsub]

/-- The two index predicates coincide. -/
theorem decide_lt_int_eq (k : Int) (j : Nat) :
    decide (k < (j : Int)) = decide ((k + 1).toNat ≤ j) := by
  apply decide_eq_decide.mpr
  exact Int.lt_iff_add_one_le.trans Int.toNat_le.symm

/-- C2: for an input list of `n` rows and a checkpoint `k` with
`-1 ≤ k < n`, a completed run of the History driver processes exactly the
rows with indices `k+1 .. n-1`, in increasing order, and never a row with
index `≤ k`. -/
theorem c2_resume_correctness (w : World) (fuel : Nat) (rows : List String) (k : Int)
    (idxs : List Nat) (tr : List Action)
    (hk1 : -1 ≤ k) (hk2 : k < (rows.length : Int))
    (h : Withdrawals.process_all_addresses w rows k fuel = some (idxs, tr)) :
    idxs = List.range' (k + 1).toNat (rows.length - (k + 1).toNat)
    ∧ ∀ i ∈ idxs, k < (i : Int) := by
  have hidx := driverGo_idxs w fuel k rows 0 idxs tr h
  have hpred : (fun j : Nat => decide (k < (j : Int))) = (fun j => decide ((k + 1).toNat ≤ j)) := by
    funext j
    exact decide_lt_int_eq k j
  rw [hpred] at hidx
  have hr0 : List.range' 0 rows.length = List.range rows.length :=
    (List.range_eq_range' rows.length).symm
  rw [hr0, range_filter_ge] at hidx
  refine ⟨hidx, ?_⟩
  intro i hi
  rw [hidx] at hi
  have hm : (k + 1).toNat ≤ i := (List.mem_range'_1.mp hi).1
  have h0 : (0 : Int) ≤ k + 1 := by omega
  have hcast : k + 1 ≤ (i : Int) := by
    calc k + 1 = ((k + 1).toNat : Int) := (Int.toNat_of_nonneg h0).symm
      _ ≤ (i : Int) := by exact_mod_cast hm
  omega

/-- A History world whose every transaction fetch immediately returns an
empty batch. -/
def c2World : World := ⟨fun _ => [FetchResult.ok []], fun _ => [FetchResult.ok []]⟩

/-- Witness for C2: three rows, checkpoint at row 0 — exactly rows 1 and 2
are processed, in order. -/
theorem c2_resume_correctness_witness :
    ([1, 2] : List Nat)
        = List.range' ((0 : Int) + 1).toNat
            ((["a", "b", "c"] : List String).length - ((0 : Int) + 1).toNat) :=
  (c2_resume_correctness c2World 1 ["a", "b", "c"] 0 [1, 2]
    [Action.writeSummary "b" 0 0, Action.saveCheckpoint 1,
     Action.writeSummary "c" 0 0, Action.saveCheckpoint 2]
    (by decide) (by decide) rfl).1

/-! Claims C3 and C4: pagination halting and offset advancement. -/

/-- Structure of a completed History paging run: the first fetch happens at
the start offset, each later fetch happens at the previous offset plus the
previous batch's ACTUAL length, every non-final batch had at least
`BATCH_SIZE` items, and the final batch was empty or shorter than
`BATCH_SIZE`. -/
theorem processAddressLoop_iters (w : World) (address : String) :
    ∀ (fuel offset : Nat) (iters : List HIter) (txs : List ProcessedTx) (cnt : Nat) (tot : Int),
      Withdrawals.processAddressLoop w address fuel offset = some (iters, txs, cnt, tot) →
      (∃ it0 rest, iters = it0 :: rest ∧ it0.offset = offset)
      ∧ List.Chain' (fun p q => q.offset = p.offset + p.batch.length) iters
      ∧ List.Chain' (fun p _ => BATCH_SIZE ≤ p.batch.length) iters
      ∧ (∀ last, iters.getLast? = some last →
          last.batch = [] ∨ last.batch.length < BATCH_SIZE) := by
  intro fuel
  induction fuel with
  | zero =>
    intro offset iters txs cnt tot h
    simp [Withdrawals.processAddressLoop] at h
  | succ fuel ih =>
    intro offset iters txs cnt tot h
    simp only [Withdrawals.processAddressLoop] at h
    split at h
    · exact Option.noConfusion h
    next transactions slept hga =>
      split at h
      next hemp =>
        simp only [Option.some.injEq, Prod.mk.injEq] at h
        obtain ⟨hh1, hh2, hh3, hh4⟩ := h
        subst hh1
        refine ⟨⟨⟨offset, transactions⟩, [], rfl, rfl⟩,
          List.chain'_singleton _, List.chain'_singleton _, ?_⟩
        intro last hl
        simp only [List.getLast?_singleton, Option.some.injEq] at hl
        subst hl
        left
        simpa using hemp
      next hemp =>
        split at h
        · exact Option.noConfusion h
        next txs1 cnt1 tot1 hpt =>
          split at h
          next hshort =>
            simp only [Option.some.injEq, Prod.mk.injEq] at h
            obtain ⟨hh1, hh2, hh3, hh4⟩ := h
            subst hh1
            refine ⟨⟨⟨offset, transactions⟩, [], rfl, rfl⟩,
              List.chain'_singleton _, List.chain'_singleton _, ?_⟩
            intro last hl
            simp only [List.getLast?_singleton, Option.some.injEq] at hl
            subst hl
            right
            exact hshort
          next hshort =>
            split at h
            · exact Option.noConfusion h
            next iters2 txs2 cnt2 tot2 hrec =>
              simp only [Option.some.injEq, Prod.mk.injEq] at h
              obtain ⟨hh1, hh2, hh3, hh4⟩ := h
              subst hh1
              obtain ⟨⟨it0, rest0, hi0, hoff0⟩, hch1, hch2, hlast⟩ :=
                ih (offset + transactions.length) iters2 txs2 cnt2 tot2 hrec
              subst hi0
              refine ⟨⟨⟨offset, transactions⟩, it0 :: rest0, rfl, rfl⟩, ?_, ?_, ?_⟩
              · exact List.chain'_cons.mpr ⟨hoff0, hch1⟩
              · exact List.chain'_cons.mpr ⟨Nat.not_lt.mp hshort, hch2⟩
              · intro last hl
                rw [List.getLast?_cons_cons] at hl
                exact hlast last hl

/-- Structure of a completed Discovery paging run: the first fetch happens at
the checkpoint offset, each later fetch happens at the previous offset plus
`BATCH_SIZE` (regardless of the actual batch size), every non-final fetch
returned a non-empty batch, and the final fetch returned `none` (a failed
attempt) or an empty batch. -/
theorem discoveryLoop_iters (w : DWorld) :
    ∀ (fuel offset : Nat) (iters : List DIter) (tr : List Action),
      Vested.discoveryLoop w fuel offset = some (iters, tr) →
      (∃ it0 rest, iters = it0 :: rest ∧ it0.offset = offset)
      ∧ List.Chain' (fun p q => q.offset = p.offset + BATCH_SIZE) iters
      ∧ List.Chain' (fun p _ => ∃ l, p.fetched = some l ∧ l ≠ []) iters
      ∧ (∀ last, iters.getLast? = some last →
          last.fetched = none ∨ last.fetched = some []) := by
  intro fuel
  induction fuel with
  | zero =>
    intro offset iters tr h
    simp [Vested.discoveryLoop] at h
  | succ fuel ih =>
    intro offset iters tr h
    simp only [Vested.discoveryLoop] at h
    split at h
    next hga =>
      simp only [Option.some.injEq, Prod.mk.injEq] at h
      obtain ⟨h1, h2⟩ := h
      subst h1
      refine ⟨⟨⟨offset, none⟩, [], rfl, rfl⟩,
        List.chain'_singleton _, List.chain'_singleton _, ?_⟩
      intro last hl
      simp only [List.getLast?_singleton, Option.some.injEq] at hl
      subst hl
      left
      rfl
    next hga =>
      simp only [Option.some.injEq, Prod.mk.injEq] at h
      obtain ⟨h1, h2⟩ := h
      subst h1
      refine ⟨⟨⟨offset, some []⟩, [], rfl, rfl⟩,
        List.chain'_singleton _, List.chain'_singleton _, ?_⟩
      intro last hl
      simp only [List.getLast?_singleton, Option.some.injEq] at hl
      subst hl
      right
      rfl
    next a as hga =>
      split at h
      · exact Option.noConfusion h
      next iters2 tr2 hrec =>
        simp only [Option.some.injEq, Prod.mk.injEq] at h
        obtain ⟨h1, h2⟩ := h
        subst h1
        obtain ⟨⟨it0, rest0, hi0, hoff0⟩, hch1, hch2, hlast⟩ :=
          ih (offset + BATCH_SIZE) iters2 tr2 hrec
        subst hi0
        refine ⟨⟨⟨offset, some (a :: as)⟩, it0 :: rest0, rfl, rfl⟩, ?_, ?_, ?_⟩
        · exact List.chain'_cons.mpr ⟨hoff0, hch1⟩
        · exact List.chain'_cons.mpr ⟨⟨a :: as, rfl, by simp⟩, hch2⟩
        · intro last hl
          rw [List.getLast?_cons_cons] at hl
          exact hlast last hl

/-- The two addresses of the short batch used as counterexample input. -/
def cexAddrs : List AddrRec := [⟨"a1"⟩, ⟨"a2"⟩]

/-- A Discovery world returning a 2-element batch at offset 0 and an empty
batch everywhere else. -/
def cexDWorld : DWorld :=
  ⟨fun offset => if offset = 0 then FetchResult.ok cexAddrs else FetchResult.ok [],
   fun _ => FetchResult.ok []⟩

/-- C3 counterexample: after fetching the non-empty batch `cexAddrs` of size
2 < `BATCH_SIZE` at offset 0, the Discovery loop does NOT halt — it performs
a second fetch, at offset 100, refuting "halts exactly when a fetched batch's
size is strictly less than the configured batch size or the batch is empty"
for the Discovery address paging. -/
theorem c3_discovery_short_batch_continues :
    Vested.discoveryLoop cexDWorld 2 0
      = some ([⟨0, some cexAddrs⟩, ⟨100, some []⟩], [Action.saveCheckpoint 100])
    ∧ cexAddrs.length < BATCH_SIZE ∧ cexAddrs ≠ [] :=
  ⟨rfl, by decide, by decide⟩

/-- C3 amended: the History per-address transaction paging halts exactly when
a fetched batch is empty or strictly shorter than `BATCH_SIZE` (every
continuing iteration had a full batch, the final one was empty or short);
the Discovery address paging instead halts exactly when the fetch fails
(returns `None`) or returns an empty batch, and continues on every non-empty
batch even when it is shorter than `BATCH_SIZE`. -/
theorem c3_pagination_halting_amended :
    (∀ (w : World) (address : String) (fuel offset : Nat) (iters : List HIter)
        (txs : List ProcessedTx) (cnt : Nat) (tot : Int),
      Withdrawals.processAddressLoop w address fuel offset = some (iters, txs, cnt, tot) →
        List.Chain' (fun p _ => BATCH_SIZE ≤ p.batch.length) iters
        ∧ (∀ last, iters.getLast? = some last →
            last.batch = [] ∨ last.batch.length < BATCH_SIZE))
    ∧ (∀ (w : DWorld) (fuel offset : Nat) (iters : List DIter) (tr : List Action),
      Vested.discoveryLoop w fuel offset = some (iters, tr) →
        List.Chain' (fun p _ => ∃ l, p.fetched = some l ∧ l ≠ []) iters
        ∧ (∀ last, iters.getLast? = some last →
            last.fetched = none ∨ last.fetched = some [])) := by
  constructor
  · intro w address fuel offset iters txs cnt tot h
    obtain ⟨_, _, hch2, hlast⟩ := processAddressLoop_iters w address fuel offset iters txs cnt tot h
    exact ⟨hch2, hlast⟩
  · intro w fuel offset iters tr h
    obtain ⟨_, _, hch2, hlast⟩ := discoveryLoop_iters w fuel offset iters tr h
    exact ⟨hch2, hlast⟩

/-- Witness for the amended C3: in the concrete Discovery run the loop's
final fetch returned an empty batch. -/
theorem c3_pagination_halting_amended_witness :
    (⟨100, some []⟩ : DIter).fetched = none ∨ (⟨100, some []⟩ : DIter).fetched = some [] :=
  (c3_pagination_halting_amended.2 cexDWorld 2 0 [⟨0, some cexAddrs⟩, ⟨100, some []⟩]
    [Action.saveCheckpoint 100] rfl).2 ⟨100, some []⟩ rfl

/-- C4 counterexample: the Discovery loop's first batch has 2 items, but the
second fetch happens at offset 100 = 0 + `BATCH_SIZE`, not at 0 + 2: the
offset is advanced by the configured batch size, not by the number of items
actually returned. -/
theorem c4_discovery_offset_advance_counterexample :
    Vested.discoveryLoop cexDWorld 2 0
      = some ([⟨0, some cexAddrs⟩, ⟨100, some []⟩], [Action.saveCheckpoint 100])
    ∧ cexAddrs.length = 2
    ∧ (100 : Nat) ≠ 0 + cexAddrs.length :=
  ⟨rfl, by decide, by decide⟩

/-- C4 amended: in the History per-address transaction paging each iteration
advances the offset by the batch's actual returned length; in the Discovery
address paging each iteration advances the offset by the configured
`BATCH_SIZE`, regardless of the batch's actual size.  In both loops the
first fetch happens at the start offset. -/
theorem c4_offset_advancement_amended :
    (∀ (w : World) (address : String) (fuel offset : Nat) (iters : List HIter)
        (txs : List ProcessedTx) (cnt : Nat) (tot : Int),
      Withdrawals.processAddressLoop w address fuel offset = some (iters, txs, cnt, tot) →
        (∃ it0 rest, iters = it0 :: rest ∧ it0.offset = offset)
        ∧ List.Chain' (fun p q => q.offset = p.offset + p.batch.length) iters)
    ∧ (∀ (w : DWorld) (fuel offset : Nat) (iters : List DIter) (tr : List Action),
      Vested.discoveryLoop w fuel offset = some (iters, tr) →
        (∃ it0 rest, iters = it0 :: rest ∧ it0.offset = offset)
        ∧ List.Chain' (fun p q => q.offset = p.offset + BATCH_SIZE) iters) := by
  constructor
  · intro w address fuel offset iters txs cnt tot h
    obtain ⟨hstart, hch1, _, _⟩ := processAddressLoop_iters w address fuel offset iters txs cnt tot h
    exact ⟨hstart, hch1⟩
  · intro w fuel offset iters tr h
    obtain ⟨hstart, hch1, _, _⟩ := discoveryLoop_iters w fuel offset iters tr h
    exact ⟨hstart, hch1⟩

/-- Witness for the amended C4: in a concrete History run the recorded first
iteration starts at the start offset 0. -/
theorem c4_offset_advancement_amended_witness :
    (⟨0, [c10Tx]⟩ : HIter).offset = 0 := by
  obtain ⟨⟨it0, rest, hi, hoff⟩, -⟩ :=
    c4_offset_advancement_amended.1 c10World "a" 1 0 [⟨0, [c10Tx]⟩]
      [⟨c10Tx, 500, "a"⟩] 1 500 rfl
  cases hi
  exact hoff

end CelestiaVestings
